import Mathlib

/-!
Verification development for the lip-sync-engine animation core.

The repository ships the WASM bridge (`src/cpp/bridge/bridge.cpp`,
`src/cpp/bridge/audio_utils.cpp`) and a thin library wrapper
(`src/cpp/lib/lipSyncEngineLib.cpp`).  The timeline / animation core
(`Timeline`, `JoiningContinuousTimeline`, `animate`, `phonemeToShape`,
the export adapter) lives in the upstream Rhubarb dependency whose
sources are not part of this repository; those components are modelled
here from the specification's component contracts (sections 3, 4 and 6 of
the spec).  Time is modelled as `ℚ` (exact seconds).
-/

/-- Modelled from the spec: the closed 9-value mouth-shape enumeration
`X (rest), A … H` of section 3 ("Shape"). -/
inductive Shape where
  | X | A | B | C | D | E | F | G | H
deriving DecidableEq, Repr

/-- Modelled from the spec: the one-character label used by the export
adapter (section 4.6, `ShapeSymbolString`). -/
def shapeName : Shape → String
  | .X => "X"
  | .A => "A"
  | .B => "B"
  | .C => "C"
  | .D => "D"
  | .E => "E"
  | .F => "F"
  | .G => "G"
  | .H => "H"

/-- Modelled from the spec: `getBasicShapes()` returns the ordered set of
all 9 shapes (section 4.4). -/
def basicShapes : List Shape :=
  [.X, .A, .B, .C, .D, .E, .F, .G, .H]

/-- Modelled from the spec: the supported phoneme inventory.  The spec
(section 4.4) names these symbols explicitly in the mapping table, plus the
distinguished silence symbol `SIL`; the full recognizer inventory is an
open question in the spec, so the model carries exactly the symbols the
spec enumerates. -/
inductive PhonemeSymbol where
  | SIL
  | AA | AH | AW
  | P | B | M
  | SH | CH | JH | ZH
  | T | D | N | L | TH | DH
  | EH | AE | UH | ER
  | F | V
  | K | G | NG
  | IY | IH | EY | AY
deriving DecidableEq, Repr

/-- Modelled from the spec: the static, total, many-to-one mapping table
`phonemeToShape` of section 4.4 (Preston Blair grouping; silence maps to
`X`). -/
def phonemeToShape : PhonemeSymbol → Shape
  | .SIL => .X
  | .AA | .AH | .AW => .A
  | .P | .B | .M => .B
  | .SH | .CH | .JH | .ZH => .C
  | .T | .D | .N | .L | .TH | .DH => .D
  | .EH | .AE | .UH | .ER => .E
  | .F | .V => .F
  | .K | .G | .NG => .G
  | .IY | .IH | .EY | .AY => .H

/-- Modelled from the spec: `Segment<T> = { start, end, value }`
(section 3); the `end` field is called `stop` because `end` is a Lean
keyword. -/
structure Segment (T : Type) where
  start : ℚ
  stop : ℚ
  value : T
deriving DecidableEq, Repr

/-- Modelled from the spec: the parts of one existing segment that survive
clearing the range `[a, b)` — the sub-range left of `a` and the sub-range
right of `b`, each kept only when non-empty (section 4.1 `clear`,
section 9 design note "clear overlapping range"). -/
def clipOutside {T : Type} (a b : ℚ) (s : Segment T) : List (Segment T) :=
  (if s.start < min s.stop a then [⟨s.start, min s.stop a, s.value⟩] else []) ++
  (if max s.start b < s.stop then [⟨max s.start b, s.stop, s.value⟩] else [])

/-- Modelled from the spec: `clear(range)` — removes all coverage within
`[a, b)`, truncating partially overlapping segments at the boundary
(section 4.1). -/
def clearRange {T : Type} (a b : ℚ) : List (Segment T) → List (Segment T)
  | [] => []
  | s :: rest => clipOutside a b s ++ clearRange a b rest

/-- Modelled from the spec: insertion keeping the segment list ordered by
`start` (section 3: segments stored sorted by `start`). -/
def insertSorted {T : Type} (s : Segment T) : List (Segment T) → List (Segment T)
  | [] => [s]
  | t :: ts => if s.start ≤ t.start then s :: t :: ts else t :: insertSorted s ts

/-- Modelled from the spec: `Timeline<T>`, an ordered collection of
non-overlapping segments (section 3). -/
structure Timeline (T : Type) where
  segs : List (Segment T)
deriving DecidableEq, Repr

/-- Modelled from the spec: `Timeline.set(segment)` — clears the parts of
existing segments inside `[segment.start, segment.end)` and inserts the new
segment (sections 4.1 and 9); a zero-width segment is dropped by the base
timeline (section 4.1, edge cases). -/
def Timeline.set {T : Type} (tl : Timeline T) (s : Segment T) : Timeline T :=
  if s.start < s.stop then
    ⟨insertSorted s (clearRange s.start s.stop tl.segs)⟩
  else tl

/-- Modelled from the spec: `Timeline.get(t)` — the value of the segment
containing `t`, or `none` in a gap (section 4.1). -/
def Timeline.get {T : Type} (tl : Timeline T) (t : ℚ) : Option T :=
  tl.segs.findSome? fun s =>
    if s.start ≤ t ∧ t < s.stop then some s.value else none

/-- Modelled from the spec: the auto-join step of
`JoiningContinuousTimeline.set` — adjacent contiguous segments with equal
values merge, repeated until no more merges are possible (section 4.3). -/
def joinStep {T : Type} [DecidableEq T] (s : Segment T) :
    List (Segment T) → List (Segment T)
  | [] => [s]
  | t :: ts =>
    if s.stop = t.start ∧ s.value = t.value then
      ⟨s.start, t.stop, s.value⟩ :: ts
    else
      s :: t :: ts

/-- Modelled from the spec: the transitive closure of the join step over a
whole segment list — every segment is merged with the head of the already
joined list to its right (section 4.3). -/
def joinSegs {T : Type} [DecidableEq T] : List (Segment T) → List (Segment T)
  | [] => []
  | s :: rest => joinStep s (joinSegs rest)

/-- Modelled from the spec: `JoiningContinuousTimeline<T>` — a timeline
over the fixed range `[0, duration]` with total coverage and auto-join
(section 4.3). -/
structure JoiningContinuousTimeline (T : Type) where
  duration : ℚ
  segs : List (Segment T)
deriving DecidableEq, Repr

/-- Modelled from the spec: construction with a `defaultValue` over
`[0, duration]`; immediately after construction the entire range is one
segment holding `defaultValue` (section 4.3). -/
def JoiningContinuousTimeline.init {T : Type} (duration : ℚ) (defaultValue : T) :
    JoiningContinuousTimeline T :=
  ⟨duration, [⟨0, duration, defaultValue⟩]⟩

/-- Modelled from the spec: `JoiningContinuousTimeline.set` — the incoming
segment is clipped to the timeline's range `[0, duration]` (section 3,
BoundedTimeline clipping; section 4.3 invariant), existing coverage of its
range is cleared, the segment is inserted, and adjacent equal-valued
segments are joined (section 4.3); a segment that is empty after clipping
has no visible effect (section 4.5, numeric/boundary policy). -/
def JoiningContinuousTimeline.set {T : Type} [DecidableEq T]
    (tl : JoiningContinuousTimeline T) (s : Segment T) :
    JoiningContinuousTimeline T :=
  if max s.start 0 < min s.stop tl.duration then
    ⟨tl.duration,
      joinSegs (insertSorted ⟨max s.start 0, min s.stop tl.duration, s.value⟩
        (clearRange (max s.start 0) (min s.stop tl.duration) tl.segs))⟩
  else tl

/-- Modelled from the spec: `BoundedTimeline<T>` — a timeline plus an
immutable duration, used to hold the recognizer's phone output
(section 3). -/
structure BoundedTimeline (T : Type) where
  duration : ℚ
  segs : List (Segment T)
deriving DecidableEq, Repr

deriving instance DecidableEq for Except

/-- Modelled from the spec: the animation algorithm `animate(phones,
targetShapes)` of section 4.5 — create a `JoiningContinuousTimeline`
spanning `[0, phones.duration]` default-filled with `X` (failing with a
configuration error when the target set omits the rest shape `X`,
sections 4.5 and 7), then fold over the phone segments in order, mapping
each to its shape (failing when the shape is not a member of the target
set) and writing it into the output timeline. -/
def animate (phones : BoundedTimeline PhonemeSymbol) (targetShapes : List Shape) :
    Except String (JoiningContinuousTimeline Shape) :=
  if Shape.X ∈ targetShapes then
    phones.segs.foldlM
      (fun acc ps =>
        if phonemeToShape ps.value ∈ targetShapes then
          Except.ok (acc.set ⟨ps.start, ps.stop, phonemeToShape ps.value⟩)
        else
          Except.error "ConfigurationError: mapped shape not in target shape set")
      (JoiningContinuousTimeline.init phones.duration Shape.X)
  else
    Except.error "ConfigurationError: target shape set must contain the rest shape X"

/-- Modelled from the spec: one exported `{start, end, value}` record
(section 4.6); the `end` field is called `stop` because `end` is a Lean
keyword. -/
structure MouthCue where
  start : ℚ
  stop : ℚ
  value : String
deriving DecidableEq, Repr

/-- Modelled from the spec: the export adapter `exportAnimation` — one
record per segment, in ascending order, verbatim (section 4.6). -/
def exportAnimation (tl : JoiningContinuousTimeline Shape) : List MouthCue :=
  tl.segs.map fun s => ⟨s.start, s.stop, shapeName s.value⟩

/-- Predicate `spans a d l`: the segment list `l` is a contiguous chain from `a` to
`d` — the first segment starts at `a`, each segment starts where the
previous one stopped, and the last stops at `d`. -/
def spans {T : Type} (a d : ℚ) : List (Segment T) → Bool
  | [] => decide (a = d)
  | s :: rest => decide (s.start = a) && spans s.stop d rest

/-- Every segment of the list runs forward (`start ≤ stop`). -/
def segsWF {T : Type} (l : List (Segment T)) : Bool :=
  l.all fun s => decide (s.start ≤ s.stop)

/-- No two adjacent segments are contiguous with equal values (the
fixpoint of the join step of section 4.3). -/
def joined {T : Type} [DecidableEq T] : List (Segment T) → Bool
  | [] => true
  | [_] => true
  | s :: t :: rest =>
    (!(decide (s.stop = t.start) && decide (s.value = t.value))) && joined (t :: rest)

/-- Predicate `coveredAt l t`: some stored segment contains the instant `t`
(segments are half-open `[start, stop)`). -/
def coveredAt {T : Type} (l : List (Segment T)) (t : ℚ) : Bool :=
  l.any fun s => decide (s.start ≤ t) && decide (t < s.stop)

/-- The coverage invariant of `JoiningContinuousTimeline` (section 4.3):
the segment list is non-empty, forms a contiguous chain from `0` to
`duration`, and every segment runs forward. -/
def JCTInv {T : Type} (tl : JoiningContinuousTimeline T) : Prop :=
  tl.segs ≠ [] ∧ spans 0 tl.duration tl.segs = true ∧ segsWF tl.segs = true

instance {T : Type} [DecidableEq T] (tl : JoiningContinuousTimeline T) : Decidable (JCTInv tl) := by
  unfold JCTInv; infer_instance

/-- Translated from `src/src/cpp/bridge/bridge.cpp`: the global state of
the C bridge (`g_initialized`, `g_models_path`, `g_last_error`); the
`g_initialized` flag is called `initDone` here. -/
structure BridgeState where
  initDone : Bool
  modelsPath : String
  lastError : String
deriving DecidableEq, Repr

/-- Translated from `src/src/cpp/bridge/bridge.cpp`,
`lipsyncengine_init`: rejects a NULL or empty `models_path` with return
code `-1`, otherwise records the path, marks the module initialized and
returns `0`.  The initial `clear_error` followed by at most one
`set_error` is modelled by each branch writing the final error value
directly; the logging-sink setup has no observable effect on the modelled
state. -/
def lipsyncengine_init (st : BridgeState) (models_path : Option String) :
    BridgeState × Int :=
  match models_path with
  | none => (⟨st.initDone, st.modelsPath, "models_path cannot be NULL or empty"⟩, -1)
  | some p =>
    if p.length = 0 then
      (⟨st.initDone, st.modelsPath, "models_path cannot be NULL or empty"⟩, -1)
    else
      (⟨true, p, ""⟩, 0)

/-- Translated from `src/src/cpp/bridge/bridge.cpp`,
`lipsyncengine_analyze_pcm16`: clears the previous error (modelled by each
branch writing its final error value directly, `""` on success), then
validates the module flag, the `pcm16` pointer (`none` models NULL) and
the two counts, failing with `none` (NULL) and a recorded message; otherwise the
body from `createAudioClipFromPCM16` through `exportAnimation` runs inside
a `try` block whose outcome is modelled by the `analysis` parameter — an
`Except.error e` models any thrown `std::exception` (caught and recorded
as `"Analysis error: " ++ e`), and `Except.ok json` the JSON string that
is copied out and returned.  Allocation of the returned buffer is assumed
to succeed (memory exhaustion is outside the model). -/
def lipsyncengine_analyze_pcm16 (st : BridgeState) (pcm16 : Option (List Int))
    (sample_count sample_rate : Int) (analysis : Except String String) :
    BridgeState × Option String :=
  if st.initDone = false then
    (⟨st.initDone, st.modelsPath,
        "Module not initialized. Call lipsyncengine_init() first"⟩, none)
  else if pcm16 = none then
    (⟨st.initDone, st.modelsPath, "pcm16 cannot be NULL"⟩, none)
  else if sample_count ≤ 0 then
    (⟨st.initDone, st.modelsPath, "sample_count must be positive"⟩, none)
  else if sample_rate ≤ 0 then
    (⟨st.initDone, st.modelsPath, "sample_rate must be positive"⟩, none)
  else
    match analysis with
    | .error e => (⟨st.initDone, st.modelsPath, "Analysis error: " ++ e⟩, none)
    | .ok json => (⟨st.initDone, st.modelsPath, ""⟩, some json)

/-- Translated from `src/src/cpp/bridge/bridge.cpp`,
`lipsyncengine_get_last_error`: returns NULL (`none`) when the stored
error string is empty, otherwise the stored string. -/
def lipsyncengine_get_last_error (st : BridgeState) : Option String :=
  if st.lastError = "" then none else some st.lastError

/-- Translated from `src/src/cpp/bridge/audio_utils.cpp`: the in-memory
`AudioClip` over PCM16 samples; samples are the stored int16 values
(modelled as `Int`), `sampleRate` the stored rate. -/
structure MemoryAudioClip where
  samples : List Int
  sampleRate : Int
deriving DecidableEq, Repr

/-- Translated from `src/src/cpp/bridge/audio_utils.cpp`, the
`MemoryAudioClip` constructor: copies `sample_count` samples and throws
`std::invalid_argument` (modelled as `Except.error`) when the sample rate
is not positive or the sample count is zero; the sample count is the
length of the modelled list (`size_t`, never negative). -/
def mkMemoryAudioClip (pcm16 : List Int) (sample_rate : Int) :
    Except String MemoryAudioClip :=
  if sample_rate ≤ 0 then .error "Sample rate must be positive"
  else if pcm16.length = 0 then .error "Sample count must be greater than zero"
  else .ok ⟨pcm16, sample_rate⟩

/-- Translated from `src/src/cpp/bridge/audio_utils.cpp`,
`createUnsafeSampleReader`: the reader returns the stored int16 sample at
the index divided by `32768.0` (exact in `ℚ`; the float division by the
power of two is exact for every int16 value).  The C++ reader is unsafe
(no bounds check); out-of-range indices are modelled by the default `0`
and the theorems only speak about valid indices. -/
def MemoryAudioClip.sampleAt (clip : MemoryAudioClip) (index : Nat) : ℚ :=
  ((clip.samples.getD index 0 : Int) : ℚ) / 32768

/-- Scenario A of the spec (section 8): three phones over duration
0.85 s. -/
def scenarioAPhones : BoundedTimeline PhonemeSymbol :=
  ⟨mkRat 85 100,
    [⟨0, mkRat 35 100, .SIL⟩, ⟨mkRat 35 100, mkRat 5 10, .DH⟩,
      ⟨mkRat 5 10, mkRat 85 100, .P⟩]⟩

/-- The shape timeline `animate` produces for scenario A. -/
def scenarioATimeline : JoiningContinuousTimeline Shape :=
  ⟨mkRat 85 100,
    [⟨0, mkRat 35 100, .X⟩, ⟨mkRat 35 100, mkRat 5 10, .D⟩,
      ⟨mkRat 5 10, mkRat 85 100, .B⟩]⟩

/-- Scenario B of the spec (section 8): two phones that map to the same
shape, over duration 0.40 s. -/
def scenarioBPhones : BoundedTimeline PhonemeSymbol :=
  ⟨mkRat 4 10, [⟨0, mkRat 2 10, .AA⟩, ⟨mkRat 2 10, mkRat 4 10, .AH⟩]⟩

theorem spans_nil_iff {T : Type} {a d : ℚ} :
    spans a d ([] : List (Segment T)) = true ↔ a = d := by
  simp [spans]

theorem spans_cons_iff {T : Type} {a d : ℚ} {s : Segment T} {rest : List (Segment T)} :
    spans a d (s :: rest) = true ↔ s.start = a ∧ spans s.stop d rest = true := by
  simp [spans]

theorem segsWF_iff {T : Type} {l : List (Segment T)} :
    segsWF l = true ↔ ∀ s ∈ l, s.start ≤ s.stop := by
  simp [segsWF]

theorem spans_le {T : Type} {d : ℚ} :
    ∀ {l : List (Segment T)} {y : ℚ}, spans y d l = true → segsWF l = true → y ≤ d := by
  intro l
  induction l with
  | nil =>
    intro y hs _
    exact le_of_eq (spans_nil_iff.mp hs)
  | cons s rest ih =>
    intro y hs hwf
    rw [spans_cons_iff] at hs
    rw [segsWF_iff] at hwf
    have h1 : y ≤ s.stop := hs.1 ▸ hwf s (List.mem_cons_self s rest)
    have h2 : segsWF rest = true :=
      segsWF_iff.mpr fun u hu => hwf u (List.mem_cons_of_mem s hu)
    exact le_trans h1 (ih hs.2 h2)

theorem joinStep_ne_nil {T : Type} [DecidableEq T] (s : Segment T)
    (l : List (Segment T)) : joinStep s l ≠ [] := by
  cases l with
  | nil => simp [joinStep]
  | cons t ts =>
    by_cases hm : s.stop = t.start ∧ s.value = t.value <;> simp [joinStep, hm]

theorem joinSegs_ne_nil {T : Type} [DecidableEq T] (s : Segment T)
    (rest : List (Segment T)) : joinSegs (s :: rest) ≠ [] :=
  joinStep_ne_nil s (joinSegs rest)

theorem spans_joinStep {T : Type} [DecidableEq T] {a d : ℚ} {s : Segment T}
    {l : List (Segment T)} (hs : s.start = a) (hl : spans s.stop d l = true) :
    spans a d (joinStep s l) = true := by
  cases l with
  | nil =>
    rw [spans_nil_iff] at hl
    rw [joinStep, spans_cons_iff]
    exact ⟨hs, spans_nil_iff.mpr hl⟩
  | cons t ts =>
    rw [spans_cons_iff] at hl
    by_cases hm : s.stop = t.start ∧ s.value = t.value
    · rw [joinStep, if_pos hm, spans_cons_iff]
      exact ⟨hs, hl.2⟩
    · rw [joinStep, if_neg hm, spans_cons_iff]
      exact ⟨hs, spans_cons_iff.mpr hl⟩

theorem spans_joinSegs {T : Type} [DecidableEq T] {d : ℚ} :
    ∀ (l : List (Segment T)) (a : ℚ), spans a d l = true → spans a d (joinSegs l) = true := by
  intro l
  induction l with
  | nil => intro a h; simpa [joinSegs] using h
  | cons s rest ih =>
    intro a h
    rw [spans_cons_iff] at h
    exact spans_joinStep h.1 (ih s.stop h.2)

theorem segsWF_joinStep {T : Type} [DecidableEq T] {s : Segment T}
    {l : List (Segment T)} (hs : s.start ≤ s.stop) (hl : segsWF l = true) :
    segsWF (joinStep s l) = true := by
  cases l with
  | nil =>
    rw [joinStep, segsWF_iff]
    intro u hu
    rw [List.mem_singleton] at hu
    subst hu
    exact hs
  | cons t ts =>
    rw [segsWF_iff] at hl
    by_cases hm : s.stop = t.start ∧ s.value = t.value
    · rw [joinStep, if_pos hm, segsWF_iff]
      intro u hu
      rcases List.mem_cons.mp hu with h1 | h2
      · subst h1
        exact le_trans hs (hm.1 ▸ hl t (List.mem_cons_self t ts))
      · exact hl u (List.mem_cons_of_mem t h2)
    · rw [joinStep, if_neg hm, segsWF_iff]
      intro u hu
      rcases List.mem_cons.mp hu with h1 | h2
      · subst h1; exact hs
      · exact hl u h2

theorem segsWF_joinSegs {T : Type} [DecidableEq T] :
    ∀ l : List (Segment T), segsWF l = true → segsWF (joinSegs l) = true := by
  intro l
  induction l with
  | nil => intro h; simpa [joinSegs] using h
  | cons s rest ih =>
    intro h
    rw [segsWF_iff] at h
    have hs : s.start ≤ s.stop := h s (List.mem_cons_self s rest)
    have hrest : segsWF rest = true :=
      segsWF_iff.mpr fun u hu => h u (List.mem_cons_of_mem s hu)
    exact segsWF_joinStep hs (ih hrest)

theorem joined_cons_iff {T : Type} [DecidableEq T] {s t : Segment T}
    {ts : List (Segment T)} :
    joined (s :: t :: ts) = true ↔
      ¬(s.stop = t.start ∧ s.value = t.value) ∧ joined (t :: ts) = true := by
  simp [joined, Decidable.not_and_iff_or_not]
  tauto

theorem joined_joinSegs {T : Type} [DecidableEq T] :
    ∀ l : List (Segment T), joined (joinSegs l) = true := by
  intro l
  induction l with
  | nil => simp [joinSegs, joined]
  | cons s rest ih =>
    rw [joinSegs]
    cases hjr : joinSegs rest with
    | nil => simp [joinStep, joined]
    | cons t ts =>
      rw [hjr] at ih
      by_cases hm : s.stop = t.start ∧ s.value = t.value
      · rw [joinStep, if_pos hm]
        cases ts with
        | nil => simp [joined]
        | cons u us =>
          rw [joined_cons_iff] at ih ⊢
          refine ⟨?_, ih.2⟩
          intro hcon
          exact ih.1 ⟨hcon.1, hm.2 ▸ hcon.2⟩
      · rw [joinStep, if_neg hm]
        exact joined_cons_iff.mpr ⟨hm, ih⟩

theorem insertSorted_ne_nil {T : Type} (s : Segment T) :
    ∀ l : List (Segment T), insertSorted s l ≠ [] := by
  intro l
  cases l with
  | nil => simp [insertSorted]
  | cons t ts =>
    rw [insertSorted]
    by_cases hc : s.start ≤ t.start <;> simp [hc]

theorem segsWF_clearRange {T : Type} (a b : ℚ) :
    ∀ l : List (Segment T), segsWF (clearRange a b l) = true := by
  intro l
  induction l with
  | nil => rfl
  | cons s rest ih =>
    rw [clearRange, segsWF_iff]
    intro u hu
    rcases List.mem_append.mp hu with h1 | h2
    · rw [clipOutside] at h1
      rcases List.mem_append.mp h1 with hl | hr
      · by_cases hc : s.start < min s.stop a
        · rw [if_pos hc, List.mem_singleton] at hl
          subst hl
          exact hc.le
        · rw [if_neg hc] at hl
          exact absurd hl (List.not_mem_nil u)
      · by_cases hc : max s.start b < s.stop
        · rw [if_pos hc, List.mem_singleton] at hr
          subst hr
          exact hc.le
        · rw [if_neg hc] at hr
          exact absurd hr (List.not_mem_nil u)
    · exact segsWF_iff.mp ih u h2

theorem segsWF_insertSorted {T : Type} {s : Segment T} (hs : s.start ≤ s.stop) :
    ∀ {l : List (Segment T)}, segsWF l = true → segsWF (insertSorted s l) = true := by
  intro l
  induction l with
  | nil =>
    intro _
    rw [insertSorted, segsWF_iff]
    intro u hu
    rw [List.mem_singleton] at hu
    subst hu
    exact hs
  | cons t ts ih =>
    intro h
    rw [segsWF_iff] at h
    rw [insertSorted]
    by_cases hc : s.start ≤ t.start
    · rw [if_pos hc, segsWF_iff]
      intro u hu
      rcases List.mem_cons.mp hu with h1 | h2
      · subst h1; exact hs
      · exact h u h2
    · rw [if_neg hc, segsWF_iff]
      intro u hu
      rcases List.mem_cons.mp hu with h1 | h2
      · rw [h1]
        exact h t (List.mem_cons_self t ts)
      · exact segsWF_iff.mp
          (ih (segsWF_iff.mpr fun w hw => h w (List.mem_cons_of_mem t hw))) u h2

theorem insertSorted_eq_cons {T : Type} {y d a b : ℚ} {v : T} {L : List (Segment T)}
    (hspan : spans y d L = true) (hay : a ≤ y) :
    insertSorted ⟨a, b, v⟩ L = ⟨a, b, v⟩ :: L := by
  cases L with
  | nil => rfl
  | cons h t =>
    rw [spans_cons_iff] at hspan
    rw [insertSorted, if_pos (show a ≤ h.start from hspan.1.symm ▸ hay)]

theorem spans_clearRange_right {T : Type} {a b d : ℚ} (hbd : b ≤ d) :
    ∀ (l : List (Segment T)) (y : ℚ), spans y d l = true → segsWF l = true → a ≤ y →
      spans (max y b) d (clearRange a b l) = true := by
  intro l
  induction l with
  | nil =>
    intro y hs _ _
    rw [spans_nil_iff] at hs
    subst hs
    rw [clearRange, spans_nil_iff]
    exact max_eq_left hbd
  | cons s rest ih =>
    intro y hs hwf hay
    rw [spans_cons_iff] at hs
    obtain ⟨hstart, hrest⟩ := hs
    rw [segsWF_iff] at hwf
    have hwfs : s.start ≤ s.stop := hwf s (List.mem_cons_self s rest)
    have hys : y ≤ s.stop := hstart ▸ hwfs
    have hwfrest : segsWF rest = true :=
      segsWF_iff.mpr fun u hu => hwf u (List.mem_cons_of_mem s hu)
    have hastop : a ≤ s.stop := le_trans hay hys
    have ihr := ih s.stop hrest hwfrest hastop
    have hnoleft : ¬ (s.start < min s.stop a) := by
      rw [hstart]
      exact not_lt.mpr (le_trans (min_le_right _ _) hay)
    rw [clearRange]
    by_cases hc : max s.start b < s.stop
    · have hble : b ≤ s.stop := le_of_lt (lt_of_le_of_lt (le_max_right _ _) hc)
      have hclip : clipOutside a b s = [⟨max s.start b, s.stop, s.value⟩] := by
        rw [clipOutside, if_neg hnoleft, if_pos hc, List.nil_append]
      rw [hclip, List.singleton_append, spans_cons_iff]
      constructor
      · show max s.start b = max y b
        rw [hstart]
      · show spans s.stop d (clearRange a b rest) = true
        rw [max_eq_left hble] at ihr
        exact ihr
    · have hclip : clipOutside a b s = [] := by
        rw [clipOutside, if_neg hnoleft, if_neg hc, List.nil_append]
      rw [hclip, List.nil_append]
      have hstople : s.stop ≤ max y b := by
        have h2 := not_lt.mp hc
        rw [hstart] at h2
        exact h2
      have hmm : max s.stop b = max y b :=
        le_antisymm (max_le hstople (le_max_right _ _))
          (max_le (le_trans hys (le_max_left _ _)) (le_max_right _ _))
      rw [hmm] at ihr
      exact ihr

theorem spans_insert_clearRange {T : Type} {a b d : ℚ} {v : T} (hab : a < b) (hbd : b ≤ d) :
    ∀ (l : List (Segment T)) (x : ℚ), spans x d l = true → segsWF l = true → x ≤ a →
      spans x d (insertSorted ⟨a, b, v⟩ (clearRange a b l)) = true := by
  intro l
  induction l with
  | nil =>
    intro x hs _ hxa
    rw [spans_nil_iff] at hs
    subst hs
    exact absurd (lt_of_lt_of_le hab hbd) (not_lt.mpr hxa)
  | cons s rest ih =>
    intro x hs hwf hxa
    rw [spans_cons_iff] at hs
    obtain ⟨hstart, hrest⟩ := hs
    rw [segsWF_iff] at hwf
    have hwfs : s.start ≤ s.stop := hwf s (List.mem_cons_self s rest)
    have hxstop : x ≤ s.stop := hstart ▸ hwfs
    have hwfrest : segsWF rest = true :=
      segsWF_iff.mpr fun u hu => hwf u (List.mem_cons_of_mem s hu)
    rw [clearRange]
    by_cases hsa : s.stop ≤ a
    · have hnoright : ¬ (max s.start b < s.stop) :=
        not_lt.mpr (le_trans (le_trans hsa hab.le) (le_max_right _ _))
      have ihr := ih s.stop hrest hwfrest hsa
      by_cases hxs : x < s.stop
      · have hleft : s.start < min s.stop a := by
          rw [hstart, min_eq_left hsa]
          exact hxs
        have hclip : clipOutside a b s = [⟨s.start, min s.stop a, s.value⟩] := by
          rw [clipOutside, if_pos hleft, if_neg hnoright, List.append_nil]
        rw [hclip, List.singleton_append, insertSorted,
          if_neg (show ¬ (a ≤ s.start) by
            rw [hstart]
            exact not_le.mpr (lt_of_lt_of_le hxs hsa))]
        rw [spans_cons_iff]
        refine ⟨hstart, ?_⟩
        show spans (min s.stop a) d _ = true
        rw [min_eq_left hsa]
        exact ihr
      · have hxeq : x = s.stop := le_antisymm hxstop (not_lt.mp hxs)
        have hnoleft : ¬ (s.start < min s.stop a) := by
          rw [hstart, min_eq_left hsa, ← hxeq]
          exact lt_irrefl x
        have hclip : clipOutside a b s = [] := by
          rw [clipOutside, if_neg hnoleft, if_neg hnoright, List.append_nil]
        rw [hclip, List.nil_append, hxeq]
        exact ihr
    · push_neg at hsa
      have hmin : min s.stop a = a := min_eq_right hsa.le
      have hmaxb : max s.start b = b := by
        rw [hstart]
        exact max_eq_right (le_trans hxa hab.le)
      have hB := spans_clearRange_right (a := a) hbd rest s.stop hrest hwfrest hsa.le
      by_cases hsb : b < s.stop
      · have hright : max s.start b < s.stop := by
          rw [hmaxb]
          exact hsb
        rw [max_eq_left hsb.le] at hB
        by_cases hxa2 : x < a
        · have hleft : s.start < min s.stop a := by
            rw [hstart, hmin]
            exact hxa2
          have hclip : clipOutside a b s =
              [⟨s.start, min s.stop a, s.value⟩, ⟨max s.start b, s.stop, s.value⟩] := by
            rw [clipOutside, if_pos hleft, if_pos hright]
            rfl
          rw [hclip]
          simp only [List.cons_append, List.nil_append]
          rw [insertSorted,
            if_neg (show ¬ (a ≤ s.start) by rw [hstart]; exact not_le.mpr hxa2),
            insertSorted,
            if_pos (show a ≤ max s.start b by rw [hmaxb]; exact hab.le)]
          rw [spans_cons_iff]
          refine ⟨hstart, ?_⟩
          show spans (min s.stop a) d _ = true
          rw [hmin, spans_cons_iff]
          refine ⟨rfl, ?_⟩
          show spans b d _ = true
          rw [spans_cons_iff]
          refine ⟨hmaxb, ?_⟩
          show spans s.stop d (clearRange a b rest) = true
          exact hB
        · have hxeq : x = a := le_antisymm hxa (not_lt.mp hxa2)
          have hnoleft : ¬ (s.start < min s.stop a) := by
            rw [hstart, hmin, hxeq]
            exact lt_irrefl a
          have hclip : clipOutside a b s = [⟨max s.start b, s.stop, s.value⟩] := by
            rw [clipOutside, if_neg hnoleft, if_pos hright, List.nil_append]
          rw [hclip, List.singleton_append, insertSorted,
            if_pos (show a ≤ max s.start b by rw [hmaxb]; exact hab.le)]
          rw [spans_cons_iff]
          refine ⟨hxeq.symm, ?_⟩
          show spans b d _ = true
          rw [spans_cons_iff]
          refine ⟨hmaxb, ?_⟩
          show spans s.stop d (clearRange a b rest) = true
          exact hB
      · have hnoright : ¬ (max s.start b < s.stop) := by
          rw [hmaxb]
          exact hsb
        rw [max_eq_right (not_lt.mp hsb)] at hB
        by_cases hxa2 : x < a
        · have hleft : s.start < min s.stop a := by
            rw [hstart, hmin]
            exact hxa2
          have hclip : clipOutside a b s = [⟨s.start, min s.stop a, s.value⟩] := by
            rw [clipOutside, if_pos hleft, if_neg hnoright, List.append_nil]
          rw [hclip, List.singleton_append, insertSorted,
            if_neg (show ¬ (a ≤ s.start) by rw [hstart]; exact not_le.mpr hxa2),
            insertSorted_eq_cons hB hab.le]
          rw [spans_cons_iff]
          refine ⟨hstart, ?_⟩
          show spans (min s.stop a) d _ = true
          rw [hmin, spans_cons_iff]
          refine ⟨rfl, ?_⟩
          show spans b d (clearRange a b rest) = true
          exact hB
        · have hxeq : x = a := le_antisymm hxa (not_lt.mp hxa2)
          have hnoleft : ¬ (s.start < min s.stop a) := by
            rw [hstart, hmin, hxeq]
            exact lt_irrefl a
          have hclip : clipOutside a b s = [] := by
            rw [clipOutside, if_neg hnoleft, if_neg hnoright, List.append_nil]
          rw [hclip, List.nil_append, insertSorted_eq_cons hB hab.le]
          rw [spans_cons_iff]
          refine ⟨hxeq.symm, ?_⟩
          show spans b d (clearRange a b rest) = true
          exact hB

theorem joinSegs_ne_nil_of_ne_nil {T : Type} [DecidableEq T] {l : List (Segment T)}
    (h : l ≠ []) : joinSegs l ≠ [] := by
  cases l with
  | nil => exact absurd rfl h
  | cons s rest => exact joinSegs_ne_nil s rest

theorem JCTInv_init {T : Type} (d : ℚ) (v : T) (hd : 0 ≤ d) :
    JCTInv (JoiningContinuousTimeline.init d v) := by
  refine ⟨by simp [JoiningContinuousTimeline.init], ?_, ?_⟩
  · simp [JoiningContinuousTimeline.init, spans]
  · simp [JoiningContinuousTimeline.init, segsWF, hd]

theorem JCT_set_duration {T : Type} [DecidableEq T]
    (tl : JoiningContinuousTimeline T) (s : Segment T) :
    (tl.set s).duration = tl.duration := by
  rw [JoiningContinuousTimeline.set]
  by_cases hc : max s.start 0 < min s.stop tl.duration
  · rw [if_pos hc]
  · rw [if_neg hc]

theorem JCTInv_set {T : Type} [DecidableEq T]
    (tl : JoiningContinuousTimeline T) (s : Segment T) (h : JCTInv tl) :
    JCTInv (tl.set s) := by
  obtain ⟨hne, hspan, hwf⟩ := h
  rw [JoiningContinuousTimeline.set]
  by_cases hc : max s.start 0 < min s.stop tl.duration
  · rw [if_pos hc]
    have h0a : (0 : ℚ) ≤ max s.start 0 := le_max_right _ _
    have hbd : min s.stop tl.duration ≤ tl.duration := min_le_right _ _
    have hins := spans_insert_clearRange (v := s.value) hc hbd tl.segs 0 hspan hwf h0a
    refine ⟨?_, ?_, ?_⟩
    · exact joinSegs_ne_nil_of_ne_nil (insertSorted_ne_nil _ _)
    · exact spans_joinSegs _ 0 hins
    · exact segsWF_joinSegs _ (segsWF_insertSorted hc.le (segsWF_clearRange _ _ _))
  · rw [if_neg hc]
    exact ⟨hne, hspan, hwf⟩

theorem coveredAt_iff_of_spans {T : Type} {d : ℚ} :
    ∀ {l : List (Segment T)} {x : ℚ}, spans x d l = true → segsWF l = true →
      ∀ t : ℚ, (coveredAt l t = true ↔ x ≤ t ∧ t < d) := by
  intro l
  induction l with
  | nil =>
    intro x hs _ t
    rw [spans_nil_iff] at hs
    subst hs
    constructor
    · intro h
      exact absurd h (by simp [coveredAt])
    · rintro ⟨h1, h2⟩
      exact absurd (lt_of_le_of_lt h1 h2) (lt_irrefl _)
  | cons s rest ih =>
    intro x hs hwf t
    rw [spans_cons_iff] at hs
    obtain ⟨hstart, hrest⟩ := hs
    rw [segsWF_iff] at hwf
    have hwfs : s.start ≤ s.stop := hwf s (List.mem_cons_self s rest)
    have hwfrest : segsWF rest = true :=
      segsWF_iff.mpr fun u hu => hwf u (List.mem_cons_of_mem s hu)
    have ihr := ih hrest hwfrest t
    rw [coveredAt, List.any_cons] at *
    rw [Bool.or_eq_true, Bool.and_eq_true, decide_eq_true_eq, decide_eq_true_eq]
    constructor
    · rintro (⟨h1, h2⟩ | hcov)
      · exact ⟨hstart ▸ h1, lt_of_lt_of_le h2 (spans_le hrest hwfrest)⟩
      · obtain ⟨h1, h2⟩ := ihr.mp hcov
        exact ⟨le_trans (le_trans (le_of_eq hstart.symm) hwfs) h1, h2⟩
    · rintro ⟨h1, h2⟩
      by_cases ht : t < s.stop
      · exact Or.inl ⟨hstart.symm ▸ h1, ht⟩
      · exact Or.inr (ihr.mpr ⟨not_lt.mp ht, h2⟩)

theorem foldlM_except_preserves {α β ε : Type} (f : β → α → Except ε β) (P : β → Prop)
    (hf : ∀ acc u acc2, P acc → f acc u = Except.ok acc2 → P acc2) :
    ∀ (l : List α) (acc res : β), P acc → l.foldlM f acc = Except.ok res → P res := by
  intro l
  induction l with
  | nil =>
    intro acc res hP h
    rw [List.foldlM_nil] at h
    simp only [pure, Except.pure, Except.ok.injEq] at h
    subst h
    exact hP
  | cons u us ih =>
    intro acc res hP h
    rw [List.foldlM_cons] at h
    cases hf1 : f acc u with
    | error e =>
      rw [hf1] at h
      exact absurd h (by simp [Bind.bind, Except.bind])
    | ok acc2 =>
      rw [hf1] at h
      exact ih acc2 res (hf acc u acc2 hP hf1)
        (by simpa [Bind.bind, Except.bind] using h)

theorem animate_ok_inv (phones : BoundedTimeline PhonemeSymbol) (ts : List Shape)
    (hd : 0 ≤ phones.duration) (tl : JoiningContinuousTimeline Shape)
    (h : animate phones ts = Except.ok tl) :
    tl.duration = phones.duration ∧ JCTInv tl := by
  rw [animate] at h
  by_cases hX : Shape.X ∈ ts
  · rw [if_pos hX] at h
    refine foldlM_except_preserves _
      (fun b => b.duration = phones.duration ∧ JCTInv b) ?_ phones.segs _ tl
      ⟨rfl, JCTInv_init _ _ hd⟩ h
    intro acc u acc2 hP hstep
    by_cases hm : phonemeToShape u.value ∈ ts
    · rw [if_pos hm] at hstep
      simp only [Except.ok.injEq] at hstep
      subst hstep
      exact ⟨(JCT_set_duration acc _).trans hP.1, JCTInv_set acc _ hP.2⟩
    · rw [if_neg hm] at hstep
      exact Except.noConfusion hstep
  · rw [if_neg hX] at h
    exact Except.noConfusion h

theorem spans_head_start {T : Type} {d : ℚ} :
    ∀ {l : List (Segment T)} {x : ℚ}, spans x d l = true →
      ∀ hne : l ≠ [], (l.head hne).start = x := by
  intro l
  cases l with
  | nil => intro x _ hne; exact absurd rfl hne
  | cons s rest =>
    intro x hs _
    exact (spans_cons_iff.mp hs).1

theorem spans_getLast_stop {T : Type} {d : ℚ} :
    ∀ {l : List (Segment T)} {x : ℚ}, spans x d l = true →
      ∀ hne : l ≠ [], (l.getLast hne).stop = d := by
  intro l
  induction l with
  | nil => intro x _ hne; exact absurd rfl hne
  | cons s rest ih =>
    intro x hs hne
    rw [spans_cons_iff] at hs
    cases rest with
    | nil => exact spans_nil_iff.mp hs.2
    | cons u us => exact ih hs.2 (List.cons_ne_nil u us)

theorem spans_chain_get {T : Type} {d : ℚ} :
    ∀ {l : List (Segment T)} {x : ℚ}, spans x d l = true →
      ∀ i, ∀ hi : i + 1 < l.length,
        (l.get ⟨i, Nat.lt_of_succ_lt hi⟩).stop = (l.get ⟨i + 1, hi⟩).start := by
  intro l
  induction l with
  | nil =>
    intro x _ i hi
    exact absurd hi (by simp)
  | cons s rest ih =>
    intro x hs i hi
    rw [spans_cons_iff] at hs
    cases i with
    | zero =>
      cases rest with
      | nil => exact absurd hi (by simp)
      | cons u us => exact ((spans_cons_iff.mp hs.2).1).symm
    | succ j =>
      have hj : j + 1 < rest.length := by simpa using hi
      exact ih hs.2 j hj

theorem findSome?_ite_singleton {T β : Type} (f : Segment T → Option β) (c : Prop)
    [Decidable c] (s : Segment T) :
    (if c then [s] else []).findSome? f = if c then f s else none := by
  by_cases hc : c
  · rw [if_pos hc, if_pos hc]
    cases hfs : f s <;> simp [List.findSome?, hfs]
  · rw [if_neg hc, if_neg hc, List.findSome?_nil]

theorem findSome?_clipOutside_eq {T : Type} {a b t : ℚ} (hab : a < b)
    (hout : t < a ∨ b ≤ t) (s : Segment T) :
    (clipOutside a b s).findSome?
        (fun u => if u.start ≤ t ∧ t < u.stop then some u.value else none)
      = if s.start ≤ t ∧ t < s.stop then some s.value else none := by
  rw [clipOutside, List.findSome?_append, findSome?_ite_singleton,
    findSome?_ite_singleton]
  rcases hout with hta | htb
  · have h2 : (if max s.start b < s.stop then
        if (⟨max s.start b, s.stop, s.value⟩ : Segment T).start ≤ t ∧ t < s.stop then
          some s.value
        else none
      else none) = none := by
      by_cases g2 : max s.start b < s.stop
      · rw [if_pos g2, if_neg]
        rintro ⟨hcon, -⟩
        exact absurd (le_trans (le_max_right s.start b) hcon)
          (not_le.mpr (lt_trans hta hab))
      · rw [if_neg g2]
    rw [h2]
    by_cases hm : s.start ≤ t ∧ t < s.stop
    · have hminlt : t < min s.stop a := lt_min hm.2 hta
      have g1 : s.start < min s.stop a := lt_of_le_of_lt hm.1 hminlt
      rw [if_pos g1, if_pos (⟨hm.1, hminlt⟩ :
          (⟨s.start, min s.stop a, s.value⟩ : Segment T).start ≤ t ∧ t < min s.stop a),
        if_pos hm]
      rfl
    · rw [if_neg hm]
      by_cases g1 : s.start < min s.stop a
      · rw [if_pos g1, if_neg]
        · rfl
        · rintro ⟨hcon1, hcon2⟩
          exact hm ⟨hcon1, lt_of_lt_of_le hcon2 (min_le_left _ _)⟩
      · rw [if_neg g1]
        rfl
  · have h1 : (if s.start < min s.stop a then
        if (⟨s.start, min s.stop a, s.value⟩ : Segment T).start ≤ t ∧ t < min s.stop a then
          some s.value
        else none
      else none) = none := by
      by_cases g1 : s.start < min s.stop a
      · rw [if_pos g1, if_neg]
        rintro ⟨-, hcon⟩
        exact absurd (lt_of_lt_of_le hcon (min_le_right s.stop a))
          (not_lt.mpr (le_trans hab.le htb))
      · rw [if_neg g1]
    rw [h1, Option.none_or]
    by_cases hm : s.start ≤ t ∧ t < s.stop
    · have hmax : max s.start b ≤ t := max_le hm.1 htb
      have g2 : max s.start b < s.stop := lt_of_le_of_lt hmax hm.2
      rw [if_pos g2, if_pos (⟨hmax, hm.2⟩ :
          (⟨max s.start b, s.stop, s.value⟩ : Segment T).start ≤ t ∧ t < s.stop),
        if_pos hm]
    · rw [if_neg hm]
      by_cases g2 : max s.start b < s.stop
      · rw [if_pos g2, if_neg]
        rintro ⟨hcon1, hcon2⟩
        exact hm ⟨le_trans (le_max_left _ _) hcon1, hcon2⟩
      · rw [if_neg g2]

theorem findSome?_clearRange_eq {T : Type} {a b t : ℚ} (hab : a < b)
    (hout : t < a ∨ b ≤ t) :
    ∀ l : List (Segment T),
      (clearRange a b l).findSome?
          (fun u => if u.start ≤ t ∧ t < u.stop then some u.value else none)
        = l.findSome?
            (fun u => if u.start ≤ t ∧ t < u.stop then some u.value else none) := by
  intro l
  induction l with
  | nil => rfl
  | cons s rest ih =>
    rw [clearRange, List.findSome?_append, findSome?_clipOutside_eq hab hout, ih]
    cases hfs : (if s.start ≤ t ∧ t < s.stop then some s.value else none) <;>
      simp [List.findSome?_cons, hfs]

theorem clearRange_no_cover {T : Type} {a b t : ℚ} (hat : a ≤ t) (htb : t < b) :
    ∀ (l : List (Segment T)) (u : Segment T), u ∈ clearRange a b l →
      ¬(u.start ≤ t ∧ t < u.stop) := by
  intro l
  induction l with
  | nil =>
    intro u hu
    exact absurd hu (List.not_mem_nil u)
  | cons s rest ih =>
    intro u hu
    rw [clearRange] at hu
    rcases List.mem_append.mp hu with h1 | h2
    · rw [clipOutside] at h1
      rcases List.mem_append.mp h1 with hl | hr
      · by_cases hc : s.start < min s.stop a
        · rw [if_pos hc, List.mem_singleton] at hl
          subst hl
          rintro ⟨-, hu2⟩
          exact absurd (lt_of_lt_of_le hu2 (le_trans (min_le_right _ _) hat))
            (lt_irrefl t)
        · rw [if_neg hc] at hl
          exact absurd hl (List.not_mem_nil u)
      · by_cases hc : max s.start b < s.stop
        · rw [if_pos hc, List.mem_singleton] at hr
          subst hr
          rintro ⟨hu1, -⟩
          exact absurd (lt_of_lt_of_le htb (le_trans (le_max_right _ _) hu1))
            (lt_irrefl t)
        · rw [if_neg hc] at hr
          exact absurd hr (List.not_mem_nil u)
    · exact ih u h2

theorem findSome?_insertSorted_self_none {T β : Type} (f : Segment T → Option β)
    (s : Segment T) (hf : f s = none) :
    ∀ l : List (Segment T), (insertSorted s l).findSome? f = l.findSome? f := by
  intro l
  induction l with
  | nil => simp [insertSorted, List.findSome?, hf]
  | cons u us ih =>
    rw [insertSorted]
    by_cases hc : s.start ≤ u.start
    · rw [if_pos hc]
      simp [List.findSome?_cons, hf]
    · rw [if_neg hc]
      cases hfu : f u <;> simp [List.findSome?_cons, hfu, ih]

theorem findSome?_insertSorted_self_some {T β : Type} (f : Segment T → Option β)
    (s : Segment T) (v : β) (hf : f s = some v) :
    ∀ l : List (Segment T), (∀ u ∈ l, f u = none) →
      (insertSorted s l).findSome? f = some v := by
  intro l
  induction l with
  | nil =>
    intro _
    simp [insertSorted, List.findSome?, hf]
  | cons u us ih =>
    intro hnone
    rw [insertSorted]
    by_cases hc : s.start ≤ u.start
    · rw [if_pos hc]
      simp [List.findSome?_cons, hf]
    · rw [if_neg hc]
      have hfu : f u = none := hnone u (List.mem_cons_self u us)
      simp only [List.findSome?_cons, hfu]
      exact ih fun w hw => hnone w (List.mem_cons_of_mem u hw)

theorem exportAnimation_ne_nil {tl : JoiningContinuousTimeline Shape}
    (h : tl.segs ≠ []) : exportAnimation tl ≠ [] := by
  rw [exportAnimation]
  simpa using h

theorem exportAnimation_head_start (tl : JoiningContinuousTimeline Shape)
    (h : tl.segs ≠ []) (h2 : exportAnimation tl ≠ []) :
    ((exportAnimation tl).head h2).start = (tl.segs.head h).start := by
  have h3 : (exportAnimation tl).head h2
      = ⟨(tl.segs.head h).start, (tl.segs.head h).stop,
          shapeName (tl.segs.head h).value⟩ :=
    List.head_map _ tl.segs h2
  rw [h3]

theorem exportAnimation_getLast_stop (tl : JoiningContinuousTimeline Shape)
    (h : tl.segs ≠ []) (h2 : exportAnimation tl ≠ []) :
    ((exportAnimation tl).getLast h2).stop = (tl.segs.getLast h).stop := by
  have h3 : (exportAnimation tl).getLast h2
      = ⟨(tl.segs.getLast h).start, (tl.segs.getLast h).stop,
          shapeName (tl.segs.getLast h).value⟩ :=
    List.getLast_map _ tl.segs h2
  rw [h3]

theorem exportAnimation_get (tl : JoiningContinuousTimeline Shape) (i : Nat)
    (h : i < (exportAnimation tl).length) (h2 : i < tl.segs.length) :
    (exportAnimation tl).get ⟨i, h⟩
      = ⟨(tl.segs.get ⟨i, h2⟩).start, (tl.segs.get ⟨i, h2⟩).stop,
          shapeName (tl.segs.get ⟨i, h2⟩).value⟩ := by
  simp [exportAnimation, List.get_eq_getElem, List.getElem_map]

/-- Claim C1: for every phone timeline of duration `D` (`D ≥ 0`, as any
`BoundedTimeline` duration is), when `animate` over the basic shape set
succeeds, the exported cue list is non-empty, its first cue starts at `0`,
its last cue ends at `D`, and every cue's end equals the next cue's start
— the cues are contiguous, exactly span `[0, D]`, and never overlap. -/
theorem animate_export_total_coverage
    (phones : BoundedTimeline PhonemeSymbol) (tl : JoiningContinuousTimeline Shape)
    (hd : 0 ≤ phones.duration) (hok : animate phones basicShapes = Except.ok tl) :
    ∃ hne : exportAnimation tl ≠ [],
      ((exportAnimation tl).head hne).start = 0 ∧
      ((exportAnimation tl).getLast hne).stop = phones.duration ∧
      ∀ i, ∀ hi : i + 1 < (exportAnimation tl).length,
        ((exportAnimation tl).get ⟨i, Nat.lt_of_succ_lt hi⟩).stop
          = ((exportAnimation tl).get ⟨i + 1, hi⟩).start := by
  obtain ⟨hdur, hne, hspan, hwf⟩ := animate_ok_inv phones basicShapes hd tl hok
  have hspan2 : spans 0 phones.duration tl.segs = true := by
    rw [← hdur]
    exact hspan
  refine ⟨exportAnimation_ne_nil hne, ?_, ?_, ?_⟩
  · rw [exportAnimation_head_start tl hne]
    exact spans_head_start hspan2 hne
  · rw [exportAnimation_getLast_stop tl hne]
    exact spans_getLast_stop hspan2 hne
  · intro i hi
    have hlen : (exportAnimation tl).length = tl.segs.length := List.length_map _ _
    have hi2 : i + 1 < tl.segs.length := by
      rw [← hlen]
      exact hi
    rw [exportAnimation_get tl i (Nat.lt_of_succ_lt hi) (Nat.lt_of_succ_lt hi2),
      exportAnimation_get tl (i + 1) hi hi2]
    exact spans_chain_get hspan2 i hi2

/-- Witness for C1: scenario A of the spec, three phones over 0.85 s. -/
theorem animate_export_total_coverage_witness :
    ∃ hne : exportAnimation scenarioATimeline ≠ [],
      ((exportAnimation scenarioATimeline).head hne).start = 0 ∧
      ((exportAnimation scenarioATimeline).getLast hne).stop
        = scenarioAPhones.duration ∧
      ∀ i, ∀ hi : i + 1 < (exportAnimation scenarioATimeline).length,
        ((exportAnimation scenarioATimeline).get ⟨i, Nat.lt_of_succ_lt hi⟩).stop
          = ((exportAnimation scenarioATimeline).get ⟨i + 1, hi⟩).start :=
  animate_export_total_coverage scenarioAPhones scenarioATimeline (by decide)
    (by decide)

/-- Claim C2: a `JoiningContinuousTimeline` built over `[0, duration]` holds
exactly one segment covering the whole range right after construction;
`set` preserves the coverage invariant (and the duration), and under the
invariant the union of the stored segments is exactly `[0, duration)` —
an instant is covered iff it lies in the range, so there are no gaps. -/
theorem jct_init_one_segment_and_set_preserves_coverage
    {T : Type} [DecidableEq T] (d : ℚ) (v : T) (hd : 0 ≤ d) :
    (JoiningContinuousTimeline.init d v).segs = [⟨0, d, v⟩] ∧
    JCTInv (JoiningContinuousTimeline.init d v) ∧
    (∀ (tl : JoiningContinuousTimeline T) (s : Segment T),
      JCTInv tl → JCTInv (tl.set s) ∧ (tl.set s).duration = tl.duration) ∧
    (∀ tl : JoiningContinuousTimeline T, JCTInv tl →
      ∀ t : ℚ, coveredAt tl.segs t = true ↔ 0 ≤ t ∧ t < tl.duration) := by
  refine ⟨rfl, JCTInv_init d v hd, ?_, ?_⟩
  · intro tl s h
    exact ⟨JCTInv_set tl s h, JCT_set_duration tl s⟩
  · intro tl h t
    exact coveredAt_iff_of_spans h.2.1 h.2.2 t

/-- Witness for C2 at `duration = 1`, default value `X`, one `set`, and a
coverage query at `t = 1/2`. -/
theorem jct_init_one_segment_and_set_preserves_coverage_witness :
    (JoiningContinuousTimeline.init 1 Shape.X).segs = [⟨0, 1, Shape.X⟩] ∧
    JCTInv ((JoiningContinuousTimeline.init 1 Shape.X).set ⟨0, mkRat 1 2, Shape.A⟩) ∧
    (coveredAt ((JoiningContinuousTimeline.init 1 Shape.X).set
        ⟨0, mkRat 1 2, Shape.A⟩).segs (mkRat 1 2) = true ↔
      0 ≤ mkRat 1 2 ∧ mkRat 1 2
        < ((JoiningContinuousTimeline.init 1 Shape.X).set
            ⟨0, mkRat 1 2, Shape.A⟩).duration) := by
  have h := jct_init_one_segment_and_set_preserves_coverage 1 Shape.X (by norm_num)
  have hinv := (h.2.2.1 (JoiningContinuousTimeline.init 1 Shape.X)
    ⟨0, mkRat 1 2, Shape.A⟩ h.2.1).1
  exact ⟨h.1, hinv, h.2.2.2 _ hinv (mkRat 1 2)⟩

/-- Claim C3: after any `set` on a joined timeline no two adjacent segments
are contiguous with equal values (merging is applied transitively through
`joinSegs`), and consequently scenario B — two adjacent phones that both
map to shape A over duration 0.40 — exports as the single merged cue
`{0.00, 0.40, "A"}`. -/
theorem jct_set_joins_adjacent_equal :
    (∀ (tl : JoiningContinuousTimeline Shape) (s : Segment Shape),
      joined tl.segs = true → joined (tl.set s).segs = true) ∧
    (animate scenarioBPhones basicShapes).map exportAnimation
      = Except.ok [⟨0, mkRat 4 10, "A"⟩] := by
  constructor
  · intro tl s h
    rw [JoiningContinuousTimeline.set]
    by_cases hc : max s.start 0 < min s.stop tl.duration
    · rw [if_pos hc]
      exact joined_joinSegs _
    · rw [if_neg hc]
      exact h
  · decide

/-- Witness for C3: one `set` on the freshly initialised timeline. -/
theorem jct_set_joins_adjacent_equal_witness :
    joined ((JoiningContinuousTimeline.init 1 Shape.X).set
      ⟨0, mkRat 1 2, Shape.A⟩).segs = true :=
  jct_set_joins_adjacent_equal.1 (JoiningContinuousTimeline.init 1 Shape.X)
    ⟨0, mkRat 1 2, Shape.A⟩ (by decide)

/-- Claim C4: animating a phone timeline with zero segments over any
duration `D` and exporting yields exactly the one cue `{0, D, "X"}`; in
particular the empty timeline of duration 1.2 yields `[{0.00, 1.20, "X"}]`. -/
theorem animate_silence_fill :
    (∀ D : ℚ, (animate ⟨D, []⟩ basicShapes).map exportAnimation
      = Except.ok [⟨0, D, "X"⟩]) ∧
    (animate ⟨mkRat 12 10, []⟩ basicShapes).map exportAnimation
      = Except.ok [⟨0, mkRat 12 10, "X"⟩] := by
  refine ⟨fun D => rfl, by decide⟩

/-- Claim C5: `animate` is deterministic — it is a pure function of its two
arguments (the embedding is state-free and performs no I/O), so two calls
on identical phone timelines and shape sets produce identical exported cue
lists. -/
theorem animate_deterministic
    (p1 p2 : BoundedTimeline PhonemeSymbol) (s1 s2 : List Shape)
    (hp : p1 = p2) (hs : s1 = s2) :
    (animate p1 s1).map exportAnimation = (animate p2 s2).map exportAnimation := by
  subst hp
  subst hs
  rfl

/-- Witness for C5: two identical calls on scenario B. -/
theorem animate_deterministic_witness :
    (animate scenarioBPhones basicShapes).map exportAnimation
      = (animate scenarioBPhones basicShapes).map exportAnimation :=
  animate_deterministic scenarioBPhones scenarioBPhones basicShapes basicShapes
    rfl rfl

/-- Claim C6: when the target shape set does not contain the rest shape `X`,
`animate` fails with a configuration error that is raised before any phone
segment is processed, and it never returns a cue timeline. -/
theorem animate_missing_rest_shape
    (phones : BoundedTimeline PhonemeSymbol) (ts : List Shape)
    (hX : Shape.X ∉ ts) :
    animate phones ts
      = Except.error
          "ConfigurationError: target shape set must contain the rest shape X" ∧
    ∀ tl : JoiningContinuousTimeline Shape, animate phones ts ≠ Except.ok tl := by
  have h : animate phones ts
      = Except.error
          "ConfigurationError: target shape set must contain the rest shape X" := by
    rw [animate, if_neg hX]
  refine ⟨h, fun tl hc => ?_⟩
  rw [h] at hc
  exact Except.noConfusion hc

/-- Witness for C6: a target set holding only shape `A`. -/
theorem animate_missing_rest_shape_witness :
    animate ⟨1, []⟩ [Shape.A]
      = Except.error
          "ConfigurationError: target shape set must contain the rest shape X" ∧
    ∀ tl : JoiningContinuousTimeline Shape, animate ⟨1, []⟩ [Shape.A] ≠ Except.ok tl :=
  animate_missing_rest_shape ⟨1, []⟩ [Shape.A] (by decide)

/-- Claim C7: `phonemeToShape` is a pure total function on the supported
phoneme inventory — every phoneme maps to one of the 9 defined shapes
(membership in the basic shape set), and the silence phoneme maps to `X`. -/
theorem phonemeToShape_total :
    (∀ p : PhonemeSymbol, phonemeToShape p ∈ basicShapes) ∧
    phonemeToShape PhonemeSymbol.SIL = Shape.X := by
  refine ⟨fun p => ?_, rfl⟩
  cases p <;> decide

/-- Claim C8: for any timeline state and any segment `s` with
`s.start ≤ s.stop`, after `set s` every instant of `[s.start, s.stop)`
reads the new segment's value, and every instant outside `[s.start,
s.stop)` reads exactly what it read before the call. -/
theorem timeline_set_frame {T : Type} (tl : Timeline T) (s : Segment T)
    (hwf : s.start ≤ s.stop) (t : ℚ) :
    (s.start ≤ t → t < s.stop → (tl.set s).get t = some s.value) ∧
    ((t < s.start ∨ s.stop ≤ t) → (tl.set s).get t = tl.get t) := by
  constructor
  · intro h1 h2
    have hab : s.start < s.stop := lt_of_le_of_lt h1 h2
    rw [Timeline.set, if_pos hab, Timeline.get]
    refine findSome?_insertSorted_self_some _ s s.value ?_ _ ?_
    · exact if_pos ⟨h1, h2⟩
    · intro u hu
      exact if_neg (clearRange_no_cover h1 h2 tl.segs u hu)
  · intro hout
    by_cases hab : s.start < s.stop
    · have hnm : (if s.start ≤ t ∧ t < s.stop then some s.value else none)
          = (none : Option T) := by
        rcases hout with h1 | h2
        · exact if_neg fun hcon => absurd h1 (not_lt.mpr hcon.1)
        · exact if_neg fun hcon => absurd (lt_of_le_of_lt h2 hcon.2) (lt_irrefl _)
      rw [Timeline.set, if_pos hab, Timeline.get, Timeline.get,
        findSome?_insertSorted_self_none _ s hnm,
        findSome?_clearRange_eq hab hout]
    · rw [Timeline.set, if_neg hab]

/-- Witness for C8: a one-segment timeline, an overwrite of its left half,
queried inside and outside the written range. -/
theorem timeline_set_frame_witness :
    (((⟨[⟨0, 1, Shape.X⟩]⟩ : Timeline Shape).set ⟨0, mkRat 1 2, Shape.A⟩).get
        (mkRat 1 4) = some Shape.A) ∧
    (((⟨[⟨0, 1, Shape.X⟩]⟩ : Timeline Shape).set ⟨0, mkRat 1 2, Shape.A⟩).get
        (mkRat 3 4) = (⟨[⟨0, 1, Shape.X⟩]⟩ : Timeline Shape).get (mkRat 3 4)) :=
  ⟨(timeline_set_frame ⟨[⟨0, 1, Shape.X⟩]⟩ ⟨0, mkRat 1 2, Shape.A⟩ (by decide)
      (mkRat 1 4)).1 (by decide) (by decide),
    (timeline_set_frame ⟨[⟨0, 1, Shape.X⟩]⟩ ⟨0, mkRat 1 2, Shape.A⟩ (by decide)
      (mkRat 3 4)).2 (Or.inr (by decide))⟩

/-- Claim C9: the C bridge's analyze call returns NULL exactly when the
module is uninitialised, the buffer pointer is NULL, a count is
non-positive, or the wrapped analysis throws; whenever it returns NULL a
non-empty message is retrievable through `lipsyncengine_get_last_error`;
on success the error slot is left cleared; and the result never depends on
the previously stored error (the call clears it first).  The model is a
total function, so no exception escapes the C boundary by construction. -/
theorem analyze_pcm16_error_contract (st : BridgeState) (pcm16 : Option (List Int))
    (sample_count sample_rate : Int) (analysis : Except String String) :
    ((lipsyncengine_analyze_pcm16 st pcm16 sample_count sample_rate analysis).2 = none ↔
      st.initDone = false ∨ pcm16 = none ∨ sample_count ≤ 0 ∨ sample_rate ≤ 0 ∨
        ∃ e, analysis = Except.error e) ∧
    ((lipsyncengine_analyze_pcm16 st pcm16 sample_count sample_rate analysis).2 = none →
      lipsyncengine_get_last_error
          (lipsyncengine_analyze_pcm16 st pcm16 sample_count sample_rate analysis).1
        ≠ none) ∧
    ((lipsyncengine_analyze_pcm16 st pcm16 sample_count sample_rate analysis).2 ≠ none →
      (lipsyncengine_analyze_pcm16 st pcm16 sample_count sample_rate
          analysis).1.lastError = "") ∧
    (∀ e : String,
      lipsyncengine_analyze_pcm16 ⟨st.initDone, st.modelsPath, e⟩ pcm16 sample_count
          sample_rate analysis
        = lipsyncengine_analyze_pcm16 st pcm16 sample_count sample_rate analysis) := by
  by_cases hinit : st.initDone = false
  · have hval : lipsyncengine_analyze_pcm16 st pcm16 sample_count sample_rate analysis
        = (⟨st.initDone, st.modelsPath,
            "Module not initialized. Call lipsyncengine_init() first"⟩, none) := by
      rw [lipsyncengine_analyze_pcm16.eq_def, if_pos hinit]
    refine ⟨?_, ?_, ?_, fun e => rfl⟩
    · rw [hval]
      simp [hinit]
    · intro _
      simp [hval, lipsyncengine_get_last_error]
    · intro hc
      rw [hval] at hc
      exact absurd rfl hc
  · by_cases hpcm : pcm16 = none
    · have hval : lipsyncengine_analyze_pcm16 st pcm16 sample_count sample_rate analysis
          = (⟨st.initDone, st.modelsPath, "pcm16 cannot be NULL"⟩, none) := by
        rw [lipsyncengine_analyze_pcm16.eq_def, if_neg hinit, if_pos hpcm]
      refine ⟨?_, ?_, ?_, fun e => rfl⟩
      · rw [hval]
        simp [hpcm]
      · intro _
        simp [hval, lipsyncengine_get_last_error]
      · intro hc
        rw [hval] at hc
        exact absurd rfl hc
    · by_cases hcount : sample_count ≤ 0
      · have hval : lipsyncengine_analyze_pcm16 st pcm16 sample_count sample_rate
            analysis
            = (⟨st.initDone, st.modelsPath, "sample_count must be positive"⟩, none) := by
          rw [lipsyncengine_analyze_pcm16.eq_def, if_neg hinit, if_neg hpcm,
            if_pos hcount]
        refine ⟨?_, ?_, ?_, fun e => rfl⟩
        · rw [hval]
          simp [hcount]
        · intro _
          simp [hval, lipsyncengine_get_last_error]
        · intro hc
          rw [hval] at hc
          exact absurd rfl hc
      · by_cases hrate : sample_rate ≤ 0
        · have hval : lipsyncengine_analyze_pcm16 st pcm16 sample_count sample_rate
              analysis
              = (⟨st.initDone, st.modelsPath, "sample_rate must be positive"⟩, none) := by
            rw [lipsyncengine_analyze_pcm16.eq_def, if_neg hinit, if_neg hpcm,
              if_neg hcount, if_pos hrate]
          refine ⟨?_, ?_, ?_, fun e => rfl⟩
          · rw [hval]
            simp [hrate]
          · intro _
            simp [hval, lipsyncengine_get_last_error]
          · intro hc
            rw [hval] at hc
            exact absurd rfl hc
        · cases analysis with
          | error e0 =>
            have hval : lipsyncengine_analyze_pcm16 st pcm16 sample_count sample_rate
                (Except.error e0)
                = (⟨st.initDone, st.modelsPath, "Analysis error: " ++ e0⟩, none) := by
              rw [lipsyncengine_analyze_pcm16.eq_def, if_neg hinit, if_neg hpcm,
                if_neg hcount, if_neg hrate]
            have hmsg : ("Analysis error: " ++ e0) ≠ "" := by
              intro h
              have h2 := congrArg String.length h
              rw [String.length_append] at h2
              have h3 : ("Analysis error: " : String).length = 16 := by decide
              have h4 : ("" : String).length = 0 := by decide
              rw [h3, h4] at h2
              omega
            refine ⟨?_, ?_, ?_, fun e => rfl⟩
            · rw [hval]
              simp
            · intro _
              simp [hval, lipsyncengine_get_last_error, hmsg]
            · intro hc
              rw [hval] at hc
              exact absurd rfl hc
          | ok json =>
            have hval : lipsyncengine_analyze_pcm16 st pcm16 sample_count sample_rate
                (Except.ok json)
                = (⟨st.initDone, st.modelsPath, ""⟩, some json) := by
              rw [lipsyncengine_analyze_pcm16.eq_def, if_neg hinit, if_neg hpcm,
                if_neg hcount, if_neg hrate]
            refine ⟨?_, ?_, ?_, fun e => rfl⟩
            · rw [hval]
              simp [hinit, hpcm, hcount, hrate]
            · intro hc
              rw [hval] at hc
              exact absurd hc (by simp)
            · intro _
              rw [hval]

/-- Witness for C9: an initialised module handed a NULL buffer returns
NULL and a retrievable error. -/
theorem analyze_pcm16_error_contract_witness :
    (lipsyncengine_analyze_pcm16 ⟨true, "/models", "old"⟩ none 5 16000
        (Except.ok "j")).2 = none ∧
    lipsyncengine_get_last_error
        (lipsyncengine_analyze_pcm16 ⟨true, "/models", "old"⟩ none 5 16000
          (Except.ok "j")).1 ≠ none :=
  ⟨(analyze_pcm16_error_contract ⟨true, "/models", "old"⟩ none 5 16000
      (Except.ok "j")).1.mpr (Or.inr (Or.inl rfl)),
    (analyze_pcm16_error_contract ⟨true, "/models", "old"⟩ none 5 16000
      (Except.ok "j")).2.1
      ((analyze_pcm16_error_contract ⟨true, "/models", "old"⟩ none 5 16000
        (Except.ok "j")).1.mpr (Or.inr (Or.inl rfl)))⟩

/-- Claim C10: `MemoryAudioClip` construction fails (throws, modelled as
`Except.error`) exactly when the sample count is zero or the sample rate
is non-positive; a successfully constructed clip's sample reader returns,
at every valid index, the stored int16 sample divided by 32768, which for
int16-bounded samples always lies in `[-1, 1)`. -/
theorem memoryAudioClip_contract (pcm16 : List Int) (sample_rate : Int)
    (hbound : ∀ v ∈ pcm16, -32768 ≤ v ∧ v ≤ 32767) :
    ((∃ msg, mkMemoryAudioClip pcm16 sample_rate = Except.error msg) ↔
      pcm16.length = 0 ∨ sample_rate ≤ 0) ∧
    ∀ clip, mkMemoryAudioClip pcm16 sample_rate = Except.ok clip →
      ∀ i, i < clip.samples.length →
        clip.sampleAt i = ((clip.samples.getD i 0 : Int) : ℚ) / 32768 ∧
        -1 ≤ clip.sampleAt i ∧ clip.sampleAt i < 1 := by
  constructor
  · rw [mkMemoryAudioClip]
    by_cases hr : sample_rate ≤ 0
    · rw [if_pos hr]
      simp [hr]
    · rw [if_neg hr]
      by_cases hl : pcm16.length = 0
      · rw [if_pos hl]
        simp [hl]
      · rw [if_neg hl]
        simp [hl, hr]
  · intro clip hok i hi
    rw [mkMemoryAudioClip] at hok
    by_cases hr : sample_rate ≤ 0
    · rw [if_pos hr] at hok
      exact Except.noConfusion hok
    · rw [if_neg hr] at hok
      by_cases hl : pcm16.length = 0
      · rw [if_pos hl] at hok
        exact Except.noConfusion hok
      · rw [if_neg hl] at hok
        simp only [Except.ok.injEq] at hok
        subst hok
        have hilen : i < pcm16.length := hi
        have hmem : pcm16.getD i 0 ∈ pcm16 := by
          rw [List.getD_eq_getElem?_getD, List.getElem?_eq_getElem hilen]
          exact List.getElem_mem hilen
        obtain ⟨hv1, hv2⟩ := hbound _ hmem
        have h32 : (0 : ℚ) < 32768 := by norm_num
        have hc1 : (-32768 : ℚ) ≤ ((pcm16.getD i 0 : Int) : ℚ) := by
          exact_mod_cast hv1
        have hc2 : ((pcm16.getD i 0 : Int) : ℚ) ≤ 32767 := by
          exact_mod_cast hv2
        refine ⟨rfl, ?_, ?_⟩
        · rw [MemoryAudioClip.sampleAt, le_div_iff₀ h32]
          linarith
        · rw [MemoryAudioClip.sampleAt, div_lt_one h32]
          linarith

/-- Witness for C10: the three extreme int16 samples at 16 kHz. -/
theorem memoryAudioClip_contract_witness :
    ((⟨[0, 32767, -32768], 16000⟩ : MemoryAudioClip).sampleAt 1
        = ((32767 : Int) : ℚ) / 32768 ∧
      -1 ≤ (⟨[0, 32767, -32768], 16000⟩ : MemoryAudioClip).sampleAt 1 ∧
      (⟨[0, 32767, -32768], 16000⟩ : MemoryAudioClip).sampleAt 1 < 1) :=
  (memoryAudioClip_contract [0, 32767, -32768] 16000 (by decide)).2
    ⟨[0, 32767, -32768], 16000⟩ rfl 1 (by decide)
